import Mathlib

/-!
Verification of the height-synchronization protocol of the
react-native LaTeX renderer.

The repository ships two near-duplicate component files:
* the debounced variant (part_000): `KaTeXAutoHeightWebView` with a
  `HEIGHT_CALCULATION_SCRIPT` that debounces with `setTimeout(..., 150)` and an
  optimal-height routine adding a 10px buffer while `lastSentHeight === 0`;
* the paint-frame variant (part_001): the same component with a script that
  schedules on `requestAnimationFrame`, stores the unrounded height in
  `lastSentHeight` and transmits `Math.ceil(height)`.

Heights are modelled as rationals (JS numbers used by the code are ordinary
finite decimals here; `NaN`/`Infinity` never arise from the modelled
arithmetic).  Side effects (React state updates, the `onHeightChange`
callback, `postMessage`) are modelled by explicit return values.
-/

namespace LatexRenderer

/-! ### Host-side receiver (`handleMessage` in `KaTeXAutoHeightWebView`)

`handleMessage` receives a raw string, runs `JSON.parse` on it, and then reads
`data.type` and `data.height`.  An inbound event is modelled after the parse
step: either the parse threw (`parseFail`), or it produced an object with a
`type` string and an optional numeric `height` field.  The JS guard
`data.type === 'height' && data.height` tests the number `data.height` for
truthiness, which for a (non-NaN) number means: present and nonzero. -/

/-- An inbound WebView message as seen by `handleMessage` after `JSON.parse`:
either the parse threw, or an object carrying a `type` string and an optional
numeric `height` field. -/
inductive Inbound where
  | parseFail : Inbound
  | msg (type : String) (height : Option ℚ) : Inbound
deriving DecidableEq, Repr

/-- The body of `handleMessage` (identical in both component files, lines
230-253 of the debounced file and 183-206 of the paint-frame file).  State is
the current displayed height (`lastHeightRef.current`, kept in lock step with
the `height` React state).  The first component of the result is the new
displayed height; the second is `some h` when `setHeight`/`onHeightChange`
fired with `h`, and `none` when nothing happened. -/
def handleMessage (minHeight current : ℚ) (m : Inbound) : ℚ × Option ℚ :=
  match m with
  | .parseFail => (current, none)
  | .msg t h =>
    match h with
    | none => (current, none)
    | some v =>
      if t = "height" ∧ v ≠ 0 then
        let newHeight := max v minHeight
        if 1 < |newHeight - current| then (newHeight, some newHeight)
        else (current, none)
      else (current, none)

/-- Folding `handleMessage` over a list of inbound messages, returning the
final displayed height. -/
def runHost (minHeight : ℚ) (current : ℚ) : List Inbound → ℚ
  | [] => current
  | m :: ms => runHost minHeight (handleMessage minHeight current m).1 ms

end LatexRenderer

namespace LatexRenderer

/-! ### Sandbox-side monitor, debounced variant (part_000)

`sendHeightUpdate` clears the pending timer and schedules a fresh one; the
timer body computes `height = calculateOptimalHeight()` and transmits it only
when `Math.abs(height - lastSentHeight) > HEIGHT_THRESHOLD` (threshold 5),
setting `lastSentHeight = height` before `postMessage`.  In this variant
`calculateOptimalHeight` returns `Math.ceil(...)`, so the heights compared,
stored and transmitted are integers. -/

/-- One evaluation of the debounced timer body at a computed height `h`:
given the stored `lastSentHeight`, return the new `lastSentHeight` and
`some h` when a notification was transmitted, `none` otherwise. -/
def sendEval (last h : ℤ) : ℤ × Option ℤ :=
  if 5 < |h - last| then (h, some h) else (last, none)

/-- Folding `sendEval` over the computed heights of successive evaluations:
returns the final `lastSentHeight` and the list of transmitted heights. -/
def runMonitor : ℤ → List ℤ → ℤ × List ℤ
  | last, [] => (last, [])
  | last, h :: hs =>
    let s := sendEval last h
    let r := runMonitor s.1 hs
    (r.1, s.2.toList ++ r.2)

/-- Modelled from the spec: the sequence of emitted notifications is the
subsequence of the measured heights in which each kept value differs from the
previously kept value (initially `lastSentHeight`) by more than the 5px
threshold. -/
def emittedSubsequenceSpec (prev : ℤ) : List ℤ → List ℤ
  | [] => []
  | h :: hs =>
    if 5 < |h - prev| then h :: emittedSubsequenceSpec h hs
    else emittedSubsequenceSpec prev hs

/-- `calculateOptimalHeight` of the debounced variant, abstracted over the
maximum `maxHeight` of the strategy values that are defined and positive: a
10px buffer is added only while `lastSentHeight === 0`, and the result is
rounded up with `Math.ceil`. -/
def calculateOptimalHeight (lastSent : ℤ) (maxHeight : ℚ) : ℤ :=
  ⌈maxHeight + (if lastSent = 0 then (10 : ℚ) else 0)⌉

/-- One debounced evaluation starting from the raw strategy maximum:
computes the height via `calculateOptimalHeight`, then applies the
threshold/store/transmit logic of the timer body. -/
def monitorStep (last : ℤ) (raw : ℚ) : ℤ × Option ℤ :=
  let h := calculateOptimalHeight last raw
  if 5 < |h - last| then (h, some h) else (last, none)

/-- Folding `monitorStep` over the raw strategy maxima of successive
evaluations. -/
def runMonitorRaw : ℤ → List ℚ → ℤ × List ℤ
  | last, [] => (last, [])
  | last, r :: rs =>
    let s := monitorStep last r
    let t := runMonitorRaw s.1 rs
    (t.1, s.2.toList ++ t.2)

/-- Modelled from the spec: for one loaded-content session the first emitted
height is the raw maximum plus a 10px buffer, rounded up; every later emitted
height is the raw maximum alone, rounded up; a value is emitted exactly when
it differs from the previously emitted one (initially 0) by more than the
threshold. -/
def specRunBuffer (last : ℤ) (firstDone : Bool) : List ℚ → List ℤ
  | [] => []
  | r :: rs =>
    let h : ℤ := if firstDone then ⌈r⌉ else ⌈r + 10⌉
    if 5 < |h - last| then h :: specRunBuffer h true rs
    else specRunBuffer last firstDone rs

/-! ### Sandbox-side monitor, paint-frame variant (part_001)

Here `sendHeightUpdate` cancels the pending animation frame and requests a
fresh one; the frame callback computes the (unrounded, rational) height, and
when `Math.abs(height - lastSentHeight) > 5` it stores the unrounded value in
`lastSentHeight` but transmits `Math.ceil(height)`. -/

/-- One evaluation of the animation-frame callback of the paint-frame
variant: returns the new `lastSentHeight` (unrounded) and the transmitted
integer height, when any. -/
def sendEvalRaf (last h : ℚ) : ℚ × Option ℤ :=
  if 5 < |h - last| then (h, some ⌈h⌉) else (last, none)

/-! ### Scheduler model (both variants)

Both scripts keep a single variable (`updateTimer` resp. `rafId`) holding the
handle of the scheduled evaluation; `sendHeightUpdate` first cancels the
handle stored there (`clearTimeout` resp. `cancelAnimationFrame`) and then
schedules a fresh evaluation, storing its handle.  The environment is
modelled by the list of handles of currently scheduled evaluations. -/

/-- An event of the scheduling model: a measurement trigger (a call to
`sendHeightUpdate`, with the fresh handle the environment hands out), or the
environment running one scheduled evaluation. -/
inductive SchedEvent where
  | trigger (fresh : ℕ) : SchedEvent
  | fire (handle : ℕ) : SchedEvent
deriving DecidableEq, Repr

/-- Scheduler state: the handles of evaluations currently scheduled in the
environment, and the script's `updateTimer`/`rafId` variable. -/
structure SchedState where
  pending : List ℕ
  stored : Option ℕ
deriving DecidableEq, Repr

/-- One scheduler transition.  A trigger cancels the stored handle (removing
it from the environment) and schedules a fresh evaluation; a fire runs (and
so removes) one scheduled evaluation. -/
def schedStep (st : SchedState) : SchedEvent → SchedState
  | .trigger fresh =>
    let cleared :=
      match st.stored with
      | none => st.pending
      | some h => st.pending.filter (fun x => x != h)
    ⟨cleared ++ [fresh], some fresh⟩
  | .fire h =>
    if h ∈ st.pending then ⟨st.pending.filter (fun x => x != h), st.stored⟩
    else st

/-- Folding `schedStep` over a list of events. -/
def runSched (st : SchedState) : List SchedEvent → SchedState
  | [] => st
  | e :: es => runSched (schedStep st e) es

/-- Invariant of the scheduler: either nothing is pending, or exactly the
evaluation whose handle the script stored is pending. -/
def SchedInv (st : SchedState) : Prop :=
  st.pending = [] ∨ ∃ h, st.pending = [h] ∧ st.stored = some h

/-! ### The `containerStyle` prop of the host component (paint-frame file)

The component folds `Object.entries(containerStyle)` into a style object: an
entry whose value is a string, whose key contains "borderWidth" and on which
`parseFloat` does not yield NaN is replaced by `parseFloat(value)`; every
other entry is copied as is.  Since the keys of a JS object are distinct, the
reduce is a per-entry map preserving key order. -/

/-- A JS value occurring in a style dictionary: a number or a string. -/
inductive JSValue where
  | num (q : ℚ) : JSValue
  | str (s : String) : JSValue
deriving DecidableEq, Repr

/-- Numeric value of a list of decimal digit characters, most significant
first. -/
def digitsToNat (ds : List Char) : ℕ :=
  ds.foldl (fun n c => 10 * n + (c.toNat - 48)) 0

/-- Model of the JS builtin `parseFloat` on simple decimal literals: an
optional sign followed by integer digits and an optional fractional part,
taken as the longest such numeric front part of the string (so "2px" parses
as 2); `none` plays the role of NaN.  Leading whitespace, exponents, hex and
Infinity forms, which never occur in the style strings considered here, are
not modelled. -/
def parseFloat (s : String) : Option ℚ :=
  let cs := s.toList
  let signAndRest : ℚ × List Char :=
    match cs with
    | '-' :: rest => (-1, rest)
    | '+' :: rest => (1, rest)
    | _ => (1, cs)
  let ip := signAndRest.2.takeWhile Char.isDigit
  let cs2 := signAndRest.2.dropWhile Char.isDigit
  let fp :=
    match cs2 with
    | '.' :: rest => rest.takeWhile Char.isDigit
    | _ => []
  if ip = [] ∧ fp = [] then none
  else some (signAndRest.1 * ((digitsToNat ip : ℚ) + (digitsToNat fp : ℚ) / 10 ^ fp.length))

/-- Whether a character list starts with the given pattern. -/
def listStartsWith : List Char → List Char → Bool
  | _, [] => true
  | [], _ :: _ => false
  | c :: cs, p :: ps => c == p && listStartsWith cs ps

/-- Whether the pattern occurs contiguously somewhere in a character list. -/
def listIncludes (pat : List Char) : List Char → Bool
  | [] => listStartsWith [] pat
  | c :: rest => listStartsWith (c :: rest) pat || listIncludes pat rest

/-- Model of the JS `String.includes`: the pattern occurs somewhere in the
string. -/
def strIncludes (s pat : String) : Bool :=
  listIncludes pat.toList s.toList

/-- The per-entry transformation of the `containerStyle` reduce: a string
value under a key containing "borderWidth" is replaced by its `parseFloat`
value when that is not NaN; all other values are kept. -/
def coerceStyleEntry (key : String) (v : JSValue) : JSValue :=
  match v with
  | .str s =>
    if strIncludes key "borderWidth" then
      match parseFloat s with
      | some q => .num q
      | none => .str s
    else .str s
  | .num q => .num q

/-- The whole `containerStyle` reduce over the entry list of the dictionary. -/
def coerceContainerStyle (entries : List (String × JSValue)) : List (String × JSValue) :=
  entries.map (fun kv => (kv.1, coerceStyleEntry kv.1 kv.2))

/-! ### The markup-generation helper (`createKaTeXHTML` / `formatContainerStyles`)

`createKaTeXHTML` styles the `#outer-wrapper` div from
`formatContainerStyles(containerStyles)`.  `formatContainerStyles` starts
from a default dictionary and assigns each caller entry over it — but when
the caller passes no dictionary (or a non-object / an array) it returns the
empty dictionary instead.  A JS object is modelled as an association list in
insertion order; property assignment replaces in place or appends. -/

/-- The `initialStyles` default dictionary of `formatContainerStyles`. -/
def defaultContainerStyles : List (String × String) :=
  [("font-family", "-apple-system, BlinkMacSystemFont, \"Segoe UI\", Roboto, sans-serif"),
   ("font-size", "16px"),
   ("line-height", "1.6"),
   ("padding", "8px"),
   ("background-color", "transparent"),
   ("color", "black")]

/-- JS property assignment `obj[k] = v` on an object in insertion order:
replace the value of an existing key in place, else append the new pair. -/
def setStyle : List (String × String) → String → String → List (String × String)
  | [], k, v => [(k, v)]
  | p :: rest, k, v => if p.1 = k then (k, v) :: rest else p :: setStyle rest k v

/-- `formatContainerStyles`: `none` models the caller passing no dictionary
(or a non-object or an array), for which the function returns the empty
dictionary; otherwise each caller entry is assigned over the defaults. -/
def formatContainerStyles (s : Option (List (String × String))) :
    List (String × String) :=
  match s with
  | none => []
  | some entries =>
    entries.foldl (fun acc kv => setStyle acc kv.1 kv.2) defaultContainerStyles

/-- Property lookup on a modelled JS object. -/
def lookupStyle (m : List (String × String)) (k : String) : Option String :=
  (m.find? (fun p => p.1 == k)).map (fun p => p.2)

/-- Claim C1: on a valid notification (type "height", positive value `v`) the
receiver computes `candidate = max v minHeight`; when
`|candidate - current| > 1` it sets the displayed height to `candidate` and
fires the callback with `candidate`, otherwise it changes nothing and fires no
callback. -/
theorem handleMessage_valid (minHeight current v : ℚ) (hv : 0 < v) :
    handleMessage minHeight current (Inbound.msg "height" (some v)) =
      if 1 < |max v minHeight - current| then
        (max v minHeight, some (max v minHeight))
      else (current, none) := by
  have hne : v ≠ 0 := ne_of_gt hv
  simp [handleMessage, hne]

/-- Witness for C1: value 130 against floor 50 and current height 50 updates
the state to 130 and fires the callback with 130. -/
theorem handleMessage_valid_witness :
    (0 : ℚ) < 130 ∧
      handleMessage 50 50 (Inbound.msg "height" (some 130)) = (130, some 130) := by
  refine ⟨by norm_num, ?_⟩
  rw [handleMessage_valid 50 50 130 (by norm_num)]
  norm_num

/-- Claim C4 counterexample: the claim asserts that any message with a
non-positive height leaves the displayed height unchanged and fires no
callback.  The guard `data.type === 'height' && data.height` only rejects a
falsy height (missing or zero); a negative height such as -5 passes it, is
clamped to `max (-5) 50 = 50`, and with current height 130 the delta 80
exceeds 1, so the state drops to 50 and the callback fires. -/
theorem handleMessage_negative_counterexample :
    (handleMessage 50 130 (Inbound.msg "height" (some (-5)))).1 ≠ 130 ∧
      (handleMessage 50 130 (Inbound.msg "height" (some (-5)))).2 ≠ none := by
  have h : handleMessage 50 130 (Inbound.msg "height" (some (-5))) = (50, some 50) := by
    simp only [handleMessage]
    norm_num
  rw [h]
  exact ⟨by norm_num, by simp⟩

/-- Claim C4 (amended): a message that fails to parse, has a type other than
"height", or has a missing or zero height value leaves the displayed height
unchanged and fires no callback.  (Negative heights, by contrast, pass the
truthiness guard and are clamped to `minHeight`.) -/
theorem handleMessage_ignores_invalid (minHeight current : ℚ) (m : Inbound)
    (h : m = Inbound.parseFail ∨
         (∃ t ht, m = Inbound.msg t ht ∧ t ≠ "height") ∨
         (∃ t, m = Inbound.msg t none) ∨
         (∃ t, m = Inbound.msg t (some 0))) :
    handleMessage minHeight current m = (current, none) := by
  rcases h with h | ⟨t, ht, rfl, hne⟩ | ⟨t, rfl⟩ | ⟨t, rfl⟩
  · subst h; rfl
  · rcases ht with _ | v
    · rfl
    · simp [handleMessage, hne]
  · rfl
  · simp [handleMessage]

/-- Witness for C4 (amended): a message of type "resize" carrying height 80
is ignored. -/
theorem handleMessage_ignores_invalid_witness :
    handleMessage 50 130 (Inbound.msg "resize" (some 80)) = (130, none) :=
  handleMessage_ignores_invalid 50 130 (Inbound.msg "resize" (some 80))
    (Or.inr (Or.inl ⟨"resize", some 80, rfl, by decide⟩))

/-- Helper: one `handleMessage` step never drops the displayed height below
`minHeight`, provided it was at least `minHeight` before. -/
theorem handleMessage_fst_ge (minHeight current : ℚ) (m : Inbound)
    (h : minHeight ≤ current) : minHeight ≤ (handleMessage minHeight current m).1 := by
  rcases m with _ | ⟨t, _ | v⟩
  · exact h
  · exact h
  · by_cases hg : t = "height" ∧ v ≠ 0
    · by_cases hd : 1 < |max v minHeight - current|
      · have h1 : handleMessage minHeight current (Inbound.msg t (some v)) =
            (max v minHeight, some (max v minHeight)) := by
          simp [handleMessage, hg, hd]
        rw [h1]
        exact le_max_right v minHeight
      · have h1 : handleMessage minHeight current (Inbound.msg t (some v)) =
            (current, none) := by
          simp [handleMessage, hg, hd]
        rw [h1]
        exact h
    · have h1 : handleMessage minHeight current (Inbound.msg t (some v)) =
          (current, none) := by
        simp [handleMessage, hg]
      rw [h1]
      exact h

/-- Claim C5: the displayed height starts at `minHeight` on mount, stays there
when no message arrives, and after any sequence of inbound messages it is
still at least `minHeight`. -/
theorem currentHeight_ge_minHeight (minHeight : ℚ) :
    runHost minHeight minHeight [] = minHeight ∧
      ∀ msgs : List Inbound, minHeight ≤ runHost minHeight minHeight msgs := by
  constructor
  · rfl
  · intro msgs
    suffices h : ∀ msgs : List Inbound, ∀ current : ℚ, minHeight ≤ current →
        minHeight ≤ runHost minHeight current msgs from
      h msgs minHeight le_rfl
    intro msgs
    induction msgs with
    | nil => intro current hc; exact hc
    | cons m ms ih =>
      intro current hc
      exact ih _ (handleMessage_fst_ge minHeight current m hc)

/-- Claim C8: delivering the same inbound message twice in a row is
idempotent: whatever the first delivery did, the second one leaves the state
unchanged and fires no callback, so update and callback happen at most once. -/
theorem handleMessage_idempotent (minHeight current : ℚ) (m : Inbound) :
    handleMessage minHeight (handleMessage minHeight current m).1 m =
      ((handleMessage minHeight current m).1, none) := by
  rcases m with _ | ⟨t, _ | v⟩
  · rfl
  · rfl
  · by_cases hg : t = "height" ∧ v ≠ 0
    · by_cases hd : 1 < |max v minHeight - current|
      · have h1 : handleMessage minHeight current (Inbound.msg t (some v)) =
            (max v minHeight, some (max v minHeight)) := by
          simp [handleMessage, hg, hd]
        rw [h1]
        simp [handleMessage, hg, sub_self, abs_zero]
      · have h1 : handleMessage minHeight current (Inbound.msg t (some v)) =
            (current, none) := by
          simp [handleMessage, hg, hd]
        rw [h1]
        simp [handleMessage, hg, hd]
    · have h1 : handleMessage minHeight current (Inbound.msg t (some v)) =
          (current, none) := by
        simp [handleMessage, hg]
      rw [h1]
      simp [handleMessage, hg]

/-- Claim C2 counterexample: the claim fails on the paint-frame variant,
where the threshold gates on the stored unrounded heights while the messages
carry ceilings.  From a fresh load, measured heights 100.4 and 105.5 both
pass the threshold (against stored 0 and 100.4 respectively), so the monitor
transmits 101 and then 106: consecutive emitted values differing by exactly
5, not more than 5, and the emitted 101 is not one of the measured values, so
the emitted values are not a subsequence of the measured ones. -/
theorem raf_emitted_not_threshold_subsequence :
    sendEvalRaf 0 (502 / 5) = (502 / 5, some 101) ∧
      sendEvalRaf (502 / 5) (211 / 2) = (211 / 2, some 106) ∧
      ¬ (5 < |(106 : ℤ) - 101|) ∧
      (101 : ℚ) ≠ 502 / 5 ∧ (101 : ℚ) ≠ 211 / 2 := by
  have h1 : sendEvalRaf 0 (502 / 5) = (502 / 5, some 101) := by
    have hc : 5 < |(502 / 5 : ℚ)| := by
      rw [abs_of_nonneg]
      · norm_num
      · norm_num
    have hceil : (⌈(502 / 5 : ℚ)⌉ : ℤ) = 101 := by
      rw [Int.ceil_eq_iff]
      norm_num
    simp [sendEvalRaf, hc, hceil]
  have h2 : sendEvalRaf (502 / 5) (211 / 2) = (211 / 2, some 106) := by
    have hd : (211 / 2 : ℚ) - 502 / 5 = 51 / 10 := by norm_num
    have hc : 5 < |(211 / 2 : ℚ) - 502 / 5| := by
      rw [hd, abs_of_nonneg]
      · norm_num
      · norm_num
    have hceil : (⌈(211 / 2 : ℚ)⌉ : ℤ) = 106 := by
      rw [Int.ceil_eq_iff]
      norm_num
    simp [sendEvalRaf, hc, hceil]
  refine ⟨h1, h2, by decide, by norm_num, by norm_num⟩

/-- Claim C2 (amended, debounced variant): in the debounced variant the
computed heights are integers and the stored `lastSentHeight` equals the
transmitted value, and there the claim holds: the monitor transmits exactly
the heights whose distance from the stored `lastSentHeight` exceeds 5; the
transmitted list is the threshold-filtered subsequence of the measured
heights (each kept value differs from the previously kept one, initially
`lastSentHeight`, by more than 5), and in particular a sublist of the
measured heights with consecutive transmitted values more than 5 apart.
(In the paint-frame variant the threshold instead gates on stored unrounded
values while ceilings are transmitted; see the counterexample.) -/
theorem monitor_emits_threshold_subsequence (last : ℤ) (hs : List ℤ) :
    (runMonitor last hs).2 = emittedSubsequenceSpec last hs ∧
      (runMonitor last hs).2.Sublist hs ∧
      List.Chain (fun a b => 5 < |b - a|) last (runMonitor last hs).2 := by
  induction hs generalizing last with
  | nil => exact ⟨rfl, List.Sublist.refl _, List.Chain.nil⟩
  | cons h hs ih =>
    by_cases hc : 5 < |h - last|
    · have e1 : runMonitor last (h :: hs) =
          ((runMonitor h hs).1, h :: (runMonitor h hs).2) := by
        simp [runMonitor, sendEval, hc]
      obtain ⟨ihspec, ihsub, ihchain⟩ := ih h
      refine ⟨?_, ?_, ?_⟩
      · rw [e1]
        simp [emittedSubsequenceSpec, hc, ihspec]
      · rw [e1]
        exact List.Sublist.cons₂ h ihsub
      · rw [e1]
        exact List.Chain.cons hc ihchain
    · have e1 : runMonitor last (h :: hs) =
          ((runMonitor last hs).1, (runMonitor last hs).2) := by
        simp [runMonitor, sendEval, hc]
      obtain ⟨ihspec, ihsub, ihchain⟩ := ih last
      refine ⟨?_, ?_, ?_⟩
      · rw [e1]
        simp [emittedSubsequenceSpec, hc, ihspec]
      · rw [e1]
        exact List.Sublist.cons h ihsub
      · rw [e1]
        exact ihchain

/-- Helper for C3: once a positive `lastSentHeight` is stored (which happens
at the first transmission), the buffer is never added again: the run agrees
with the spec-side run in its unbuffered mode. -/
theorem runMonitorRaw_after_first (rs : List ℚ) :
    ∀ last : ℤ, (∀ r ∈ rs, 0 < r) → 0 < last →
      (runMonitorRaw last rs).2 = specRunBuffer last true rs := by
  induction rs with
  | nil => intro last _ _; rfl
  | cons r rs ih =>
    intro last hpos hlast
    have hl0 : last ≠ 0 := ne_of_gt hlast
    have hcalc : calculateOptimalHeight last r = ⌈r⌉ := by
      simp [calculateOptimalHeight, hl0]
    have hposr : 0 < r := hpos r (List.mem_cons_self r rs)
    have hpos' : ∀ x ∈ rs, 0 < x := fun x hx => hpos x (List.mem_cons_of_mem r hx)
    by_cases hc : 5 < |⌈r⌉ - last|
    · have e1 : runMonitorRaw last (r :: rs) =
          ((runMonitorRaw ⌈r⌉ rs).1, ⌈r⌉ :: (runMonitorRaw ⌈r⌉ rs).2) := by
        simp [runMonitorRaw, monitorStep, hcalc, hc]
      rw [e1]
      have hcpos : (0 : ℤ) < ⌈r⌉ := Int.ceil_pos.mpr hposr
      simp [specRunBuffer, hc, ih ⌈r⌉ hpos' hcpos]
    · have e1 : runMonitorRaw last (r :: rs) =
          ((runMonitorRaw last rs).1, (runMonitorRaw last rs).2) := by
        simp [runMonitorRaw, monitorStep, hcalc, hc]
      rw [e1]
      simp [specRunBuffer, hc, ih last hpos' hlast]

/-- Claim C3 (amended, debounced variant): starting from a fresh load
(`lastSentHeight = 0`) and positive raw strategy maxima, the transmitted
heights are exactly those of the spec-side run: the first transmitted height
carries the 10px buffer (it is `⌈raw + 10⌉`), and every later transmitted
height is `⌈raw⌉` with no buffer. -/
theorem firstEmission_buffered (raws : List ℚ) (hpos : ∀ r ∈ raws, 0 < r) :
    (runMonitorRaw 0 raws).2 = specRunBuffer 0 false raws := by
  revert hpos
  induction raws with
  | nil => intro _; rfl
  | cons r rs ih =>
    intro hpos
    have hcalc : calculateOptimalHeight 0 r = ⌈r⌉ + 10 := by
      simp [calculateOptimalHeight]
    have hposr : 0 < r := hpos r (List.mem_cons_self r rs)
    have hpos' : ∀ x ∈ rs, 0 < x := fun x hx => hpos x (List.mem_cons_of_mem r hx)
    by_cases hc : 5 < |(⌈r⌉ : ℤ) + 10|
    · have e1 : runMonitorRaw 0 (r :: rs) =
          ((runMonitorRaw (⌈r⌉ + 10) rs).1,
            (⌈r⌉ + 10) :: (runMonitorRaw (⌈r⌉ + 10) rs).2) := by
        simp [runMonitorRaw, monitorStep, hcalc, hc]
      rw [e1]
      have hcpos : (0 : ℤ) < ⌈r⌉ + 10 := by
        have hcl : (0 : ℤ) < ⌈r⌉ := Int.ceil_pos.mpr hposr
        linarith
      simp [specRunBuffer, hc,
        runMonitorRaw_after_first rs (⌈r⌉ + 10) hpos' hcpos]
    · have e1 : runMonitorRaw 0 (r :: rs) =
          ((runMonitorRaw 0 rs).1, (runMonitorRaw 0 rs).2) := by
        simp [runMonitorRaw, monitorStep, hcalc, hc]
      rw [e1]
      simp only [specRunBuffer]
      simp [hc, ih hpos']

/-- Witness for C3 (amended): raw maxima 120, 128, 145 from a fresh load.
The run transmits 130 (buffered first emission) and then 145; the 128 cycle
is absorbed by the 5px threshold. -/
theorem firstEmission_buffered_witness :
    (∀ r ∈ ([120, 128, 145] : List ℚ), 0 < r) ∧
      (runMonitorRaw 0 [120, 128, 145]).2 = specRunBuffer 0 false [120, 128, 145] :=
  ⟨by norm_num, firstEmission_buffered [120, 128, 145] (by norm_num)⟩

/-- Claim C3 counterexample: the claim fails on the paint-frame variant,
whose `calculateHeight` never adds a buffer.  On a fresh load
(`lastSentHeight = 0`) with raw height 120, that variant transmits 120,
whereas the claim demands `⌈120 + 10⌉ = 130`. -/
theorem raf_first_emission_no_buffer :
    (sendEvalRaf 0 120).2 = some 120 ∧ (⌈(120 : ℚ) + 10⌉ : ℤ) = 130 ∧
      (120 : ℤ) ≠ 130 := by
  refine ⟨?_, by norm_num, by decide⟩
  norm_num [sendEvalRaf]

/-- Claim C10: in the paint-frame variant, an accepted emission stores the
unrounded measured height in `lastSentHeight` while transmitting its ceiling;
the transmitted value is at least the stored one and exceeds it by less than
one pixel, and the stored (unrounded) value is what the next threshold test
compares against. -/
theorem raf_stores_unrounded (last h : ℚ) (hthr : 5 < |h - last|) :
    sendEvalRaf last h = (h, some ⌈h⌉) ∧ h ≤ (⌈h⌉ : ℚ) ∧ ((⌈h⌉ : ℚ) - h) < 1 := by
  refine ⟨by simp [sendEvalRaf, hthr], Int.le_ceil h, ?_⟩
  have hlt : (h : ℚ) + 1 > (⌈h⌉ : ℚ) := by
    exact_mod_cast Int.ceil_lt_add_one h
  linarith

/-- Witness for C10: measured height 100.5 against stored 0: the emission
stores 100.5, transmits 101, and the gap is 0.5 < 1. -/
theorem raf_stores_unrounded_witness :
    (5 < |(201 / 2 : ℚ) - 0|) ∧
      (sendEvalRaf 0 (201 / 2) = (201 / 2, some ⌈(201 / 2 : ℚ)⌉) ∧
        (201 / 2 : ℚ) ≤ (⌈(201 / 2 : ℚ)⌉ : ℚ) ∧
        ((⌈(201 / 2 : ℚ)⌉ : ℚ) - 201 / 2) < 1) := by
  have hthr : 5 < |(201 / 2 : ℚ) - 0| := by
    rw [sub_zero, abs_of_nonneg]
    · norm_num
    · norm_num
  exact ⟨hthr, raf_stores_unrounded 0 (201 / 2) hthr⟩

/-- Helper for C9: one scheduler transition preserves the invariant that at
most the stored evaluation is pending. -/
theorem schedStep_inv (st : SchedState) (e : SchedEvent) (h : SchedInv st) :
    SchedInv (schedStep st e) := by
  rcases e with fresh | hd
  · right
    refine ⟨fresh, ?_, rfl⟩
    rcases h with hnil | ⟨k, hp, hs⟩
    · cases hst : st.stored <;> simp [schedStep, hnil, hst]
    · simp [schedStep, hp, hs]
  · rcases h with hnil | ⟨k, hp, hs⟩
    · have e1 : schedStep st (SchedEvent.fire hd) = st := by
        simp [schedStep, hnil]
      rw [e1]
      exact Or.inl hnil
    · by_cases hh : hd = k
      · subst hh
        have e1 : schedStep st (SchedEvent.fire hd) = ⟨[], st.stored⟩ := by
          simp [schedStep, hp]
        rw [e1]
        exact Or.inl rfl
      · have e1 : schedStep st (SchedEvent.fire hd) = st := by
          simp [schedStep, hp, hh]
        rw [e1]
        exact Or.inr ⟨k, hp, hs⟩

/-- Helper for C9: the invariant holds along any run. -/
theorem runSched_inv (es : List SchedEvent) :
    ∀ st : SchedState, SchedInv st → SchedInv (runSched st es) := by
  induction es with
  | nil => intro st h; exact h
  | cons e es ih => intro st h; exact ih _ (schedStep_inv st e h)

/-- Claim C9: starting from the initial state (no pending evaluation, no
stored handle), after any sequence of measurement triggers and evaluation
runs at most one notification evaluation is pending, because every trigger
first cancels the previously scheduled evaluation. -/
theorem sched_at_most_one_pending (events : List SchedEvent) :
    (runSched ⟨[], none⟩ events).pending.length ≤ 1 := by
  have h := runSched_inv events ⟨[], none⟩ (Or.inl rfl)
  rcases h with hnil | ⟨k, hp, _⟩
  · rw [hnil]
    simp
  · rw [hp]
    simp

/-- Claim C6 counterexample: the claim says a borderWidth-keyed property is
coerced when its value is a numeric string and every other property passes
through unmodified.  But the guard is `!isNaN(parseFloat(value))`, and
`parseFloat` parses the longest numeric front part, so the non-numeric string
"2px" under the key "borderWidth" is also modified: it becomes the number
2. -/
theorem borderWidth_partial_numeric_coerced :
    coerceContainerStyle [("borderWidth", JSValue.str "2px")] =
      [("borderWidth", JSValue.num 2)] ∧
      JSValue.str "2px" ≠ JSValue.num 2 := by
  have hp : parseFloat "2px" = some 2 := by
    have h : parseFloat "2px" =
        some (1 * (((2 : ℕ) : ℚ) + ((0 : ℕ) : ℚ) / 10 ^ (0 : ℕ))) := rfl
    rw [h]
    norm_num
  have hb : strIncludes "borderWidth" "borderWidth" = true := by decide
  constructor
  · simp [coerceContainerStyle, coerceStyleEntry, hb, hp]
  · simp

/-- Claim C6 (amended): the `containerStyle` transformation keeps every key
and maps each entry independently; a string value under a key containing
"borderWidth" on which `parseFloat` succeeds (in particular a numeric string
such as "2") is replaced by the parsed number, and an entry whose key does
not contain "borderWidth", whose value is not a string, or whose string value
has no numeric front part passes through unmodified. -/
theorem containerStyle_coercion (entries : List (String × JSValue))
    (k : String) (v : JSValue) (hin : (k, v) ∈ entries) :
    (k, coerceStyleEntry k v) ∈ coerceContainerStyle entries ∧
      (∀ s q, v = JSValue.str s → strIncludes k "borderWidth" = true →
        parseFloat s = some q → coerceStyleEntry k v = JSValue.num q) ∧
      ((strIncludes k "borderWidth" = false ∨
        (∀ s, v = JSValue.str s → parseFloat s = none) ∨
        (∃ q, v = JSValue.num q)) →
        coerceStyleEntry k v = v) := by
  refine ⟨List.mem_map.mpr ⟨(k, v), hin, rfl⟩, ?_, ?_⟩
  · intro s q hv hbw hp
    subst hv
    simp [coerceStyleEntry, hbw, hp]
  · intro h
    rcases h with hbw | hnp | ⟨q, rfl⟩
    · cases v with
      | num q => rfl
      | str s => simp [coerceStyleEntry, hbw]
    · cases v with
      | num q => rfl
      | str s => simp [coerceStyleEntry, hnp s rfl]
    · rfl

/-- Witness for C6 (amended), at the dictionary holding the single entry
mapping "borderWidth" to the numeric string "2". -/
theorem containerStyle_coercion_witness :
    (("borderWidth", JSValue.str "2") ∈
        ([("borderWidth", JSValue.str "2")] : List (String × JSValue))) ∧
      (("borderWidth", coerceStyleEntry "borderWidth" (JSValue.str "2")) ∈
          coerceContainerStyle [("borderWidth", JSValue.str "2")] ∧
        (∀ s q, JSValue.str "2" = JSValue.str s →
          strIncludes "borderWidth" "borderWidth" = true →
          parseFloat s = some q →
          coerceStyleEntry "borderWidth" (JSValue.str "2") = JSValue.num q) ∧
        ((strIncludes "borderWidth" "borderWidth" = false ∨
          (∀ s, JSValue.str "2" = JSValue.str s → parseFloat s = none) ∨
          (∃ q, JSValue.str "2" = JSValue.num q)) →
          coerceStyleEntry "borderWidth" (JSValue.str "2") = JSValue.str "2")) := by
  have hin : ("borderWidth", JSValue.str "2") ∈
      ([("borderWidth", JSValue.str "2")] : List (String × JSValue)) :=
    List.mem_singleton.mpr rfl
  exact ⟨hin, containerStyle_coercion _ _ _ hin⟩

/-- Claim C7 counterexample: the claim says the outer wrapper is styled from
the default dictionary merged with the caller's entries even when the caller
supplies no container style dictionary.  But `formatContainerStyles` returns
the empty dictionary on a missing (or non-object, or array) argument: no
default is applied, and in particular the default "padding" entry is
absent. -/
theorem formatContainerStyles_none_empty :
    formatContainerStyles none = [] ∧
      defaultContainerStyles ≠ [] ∧
      lookupStyle (formatContainerStyles none) "padding" = none ∧
      lookupStyle defaultContainerStyles "padding" = some "8px" := by
  refine ⟨rfl, by decide, rfl, by decide⟩

/-- Helper for C7: assigning a key makes later lookups of that key find the
assigned value. -/
theorem lookupStyle_setStyle_self (m : List (String × String)) (k v : String) :
    lookupStyle (setStyle m k v) k = some v := by
  induction m with
  | nil => simp [setStyle, lookupStyle]
  | cons p rest ih =>
    by_cases h : p.1 = k
    · simp [setStyle, h, lookupStyle]
    · have hb : (p.1 == k) = false := beq_eq_false_iff_ne.mpr h
      simp only [setStyle, if_neg h]
      simp only [lookupStyle, List.find?, hb]
      simpa [lookupStyle] using ih

/-- Helper for C7: assigning a key leaves lookups of other keys unchanged. -/
theorem lookupStyle_setStyle_ne (m : List (String × String)) (k v k' : String)
    (h : k' ≠ k) : lookupStyle (setStyle m k v) k' = lookupStyle m k' := by
  have hkk : (k == k') = false := beq_eq_false_iff_ne.mpr (Ne.symm h)
  induction m with
  | nil => simp [setStyle, lookupStyle, List.find?, hkk]
  | cons p rest ih =>
    by_cases hp : p.1 = k
    · simp [setStyle, hp, lookupStyle, List.find?, hkk]
    · simp only [setStyle, if_neg hp]
      by_cases hp' : p.1 = k'
      · have hb : (p.1 == k') = true := beq_iff_eq.mpr hp'
        simp [lookupStyle, List.find?, hb]
      · have hb : (p.1 == k') = false := beq_eq_false_iff_ne.mpr hp'
        simp only [lookupStyle, List.find?, hb]
        simpa [lookupStyle] using ih

/-- Helper for C7: folding assignments whose keys avoid `k` leaves lookups of
`k` unchanged. -/
theorem lookupStyle_foldl_not_mem (entries : List (String × String)) :
    ∀ (m : List (String × String)) (k : String), k ∉ entries.map Prod.fst →
      lookupStyle (entries.foldl (fun acc kv => setStyle acc kv.1 kv.2) m) k =
        lookupStyle m k := by
  induction entries with
  | nil => intro m k _; rfl
  | cons e rest ih =>
    intro m k hk
    have hk1 : k ≠ e.1 := by
      intro hkey
      exact hk (by simp [hkey])
    have hk2 : k ∉ rest.map Prod.fst := by
      intro hmem
      exact hk (by simp [hmem])
    simp only [List.foldl_cons]
    rw [ih _ k hk2, lookupStyle_setStyle_ne m e.1 e.2 k hk1]

/-- Claim C7 (amended): when the caller does supply a container style
dictionary (with the distinct keys of a JS object), the outer wrapper styles
are the defaults merged with the caller's entries, each caller entry
overriding the default for its key: a key the caller set resolves to the
caller's value, any other key resolves to its default (if any).  When the
caller supplies no dictionary, the style set is empty (see the
counterexample). -/
theorem formatContainerStyles_merges (entries : List (String × String))
    (hnd : (entries.map Prod.fst).Nodup) (k : String) :
    lookupStyle (formatContainerStyles (some entries)) k =
      (match lookupStyle entries k with
       | some v => some v
       | none => lookupStyle defaultContainerStyles k) := by
  suffices h : ∀ (entries : List (String × String)),
      (entries.map Prod.fst).Nodup →
      ∀ (m : List (String × String)) (k : String),
      lookupStyle (entries.foldl (fun acc kv => setStyle acc kv.1 kv.2) m) k =
        (match lookupStyle entries k with
         | some v => some v
         | none => lookupStyle m k) from
    h entries hnd defaultContainerStyles k
  intro entries
  induction entries with
  | nil => intro _ m k; rfl
  | cons e rest ih =>
    intro hnd m k
    rw [List.map_cons, List.nodup_cons] at hnd
    obtain ⟨hhead, htail⟩ := hnd
    simp only [List.foldl_cons]
    by_cases hk : k = e.1
    · rw [hk]
      rw [lookupStyle_foldl_not_mem rest (setStyle m e.1 e.2) e.1 hhead,
        lookupStyle_setStyle_self]
      have hr : lookupStyle (e :: rest) e.1 = some e.2 := by
        have hb : (e.1 == e.1) = true := beq_iff_eq.mpr rfl
        simp [lookupStyle, List.find?, hb]
      rw [hr]
    · rw [ih htail (setStyle m e.1 e.2) k]
      have hr : lookupStyle (e :: rest) k = lookupStyle rest k := by
        have hb : (e.1 == k) = false := beq_eq_false_iff_ne.mpr (Ne.symm hk)
        simp [lookupStyle, List.find?, hb]
      rw [hr]
      cases hcase : lookupStyle rest k with
      | some v => rfl
      | none => simp [lookupStyle_setStyle_ne m e.1 e.2 k hk]

/-- Witness for C7 (amended): the caller dictionary maps "padding" to "15px"
and "width" to "80%"; looking up "padding" in the merged wrapper styles gives
the caller value. -/
theorem formatContainerStyles_merges_witness :
    ((([("padding", "15px"), ("width", "80%")] :
        List (String × String)).map Prod.fst).Nodup) ∧
      lookupStyle
          (formatContainerStyles (some [("padding", "15px"), ("width", "80%")]))
          "padding" =
        (match lookupStyle [("padding", "15px"), ("width", "80%")] "padding" with
         | some v => some v
         | none => lookupStyle defaultContainerStyles "padding") := by
  have hnd : ((([("padding", "15px"), ("width", "80%")] :
      List (String × String)).map Prod.fst).Nodup) := by decide
  exact ⟨hnd, formatContainerStyles_merges _ hnd "padding"⟩

end LatexRenderer
